import Mathlib

/-!
# Verification of the CloudDataOrchestrator resilience-and-monitoring core

A shallow embedding of the core utilities of the repository
(`src/utils/resilience.py`, `src/utils/cache.py`, `src/utils/alerts.py`,
`src/utils/anomaly_detector.py`) together with proofs of the behavioural
properties stated in the specification.

Modelling conventions:
* Python wall-clock instants and durations are rationals (seconds); every
  operation that reads `datetime.now()` receives the current instant `now`
  explicitly.
* Python exceptions are values carrying their class and message.  All
  exception classes appearing in the embedded modules derive from the
  built-in `Exception`.
* A fallible Python call is an `Outcome`: either a normal return or a
  raised exception.
* Mutable objects become explicit state threaded through the operations.
-/

namespace CloudOrch

/-- The Python exception classes relevant to the embedded modules.  Every
class in the list derives from the built-in `Exception`; the source never
defines a dedicated error class (in particular there is no
`CircuitOpenError` class anywhere in the repository). -/
inductive ExcClass where
  | exception
  | valueError
  | typeError
  deriving DecidableEq, Repr

/-- Python subclass test between the modelled classes: each class is a
subclass of itself, and every modelled class derives from `Exception`. -/
def ExcClass.isSubclassOf (a b : ExcClass) : Bool :=
  a = b || b = ExcClass.exception

/-- A raised Python exception: its class and its message. -/
structure Exc where
  cls : ExcClass
  msg : String
  deriving DecidableEq, Repr

/-- `except (C₁, …, Cₙ)` clause: the exception is caught iff its class is a
subclass of one of the listed classes. -/
def Exc.matchedBy (e : Exc) (cfg : List ExcClass) : Bool :=
  cfg.any fun c => e.cls.isSubclassOf c

/-- Result of one Python call: normal return or raised exception. -/
inductive Outcome (α : Type) where
  | ok (v : α)
  | err (e : Exc)
  deriving DecidableEq, Repr

/-! ## Retry handler (`src/utils/resilience.py`, `RetryHandler`)

The wrapped operation is modelled as a map from the (1-based) invocation
number to the outcome that invocation produces.  The backoff strategy and
the `on_retry` hook only cause delays/logging and do not affect the
control flow, so they are not part of the functional model. -/

/-- Configuration of a `RetryHandler`: `max_attempts` and the tuple of
retryable exception classes. -/
structure RetryHandler where
  maxAttempts : Nat
  exceptions : List ExcClass
  deriving Repr

/-- The `for attempt in range(1, max_attempts+1)` loop of
`RetryHandler.__call__.wrapper`, entered at attempt number `attempt` with
`fuel` loop iterations remaining (`fuel = maxAttempts + 1 - attempt` at the
initial call).  Returns the outcome together with the number of times the
wrapped operation was invoked.  The `fuel = 0` case is the fall-through
`raise last_exception` after the loop, reachable only when
`max_attempts = 0` where Python raises from `raise None` (a `TypeError`). -/
def retryLoop {α : Type} (excs : List ExcClass) (maxAttempts : Nat)
    (op : Nat → Outcome α) : Nat → Nat → Outcome α × Nat
  | attempt, 0 =>
    (Outcome.err ⟨ExcClass.typeError,
      "exceptions must derive from BaseException"⟩, attempt - 1)
  | attempt, fuel + 1 =>
    match op attempt with
    | Outcome.ok v => (Outcome.ok v, attempt)
    | Outcome.err e =>
      if e.matchedBy excs then
        if attempt = maxAttempts then (Outcome.err e, attempt)
        else retryLoop excs maxAttempts op (attempt + 1) fuel
      else (Outcome.err e, attempt)

/-- One call of the function wrapped by `RetryHandler.__call__`:
run the attempt loop starting at attempt 1. -/
def RetryHandler.call {α : Type} (h : RetryHandler) (op : Nat → Outcome α) :
    Outcome α × Nat :=
  retryLoop h.exceptions h.maxAttempts op 1 h.maxAttempts

lemma retryLoop_ok {α : Type} (excs : List ExcClass) (maxA : Nat)
    (op : Nat → Outcome α) (v : α) :
    ∀ fuel attempt, attempt + fuel = maxA + 1 → 1 ≤ attempt → attempt ≤ maxA →
    (∀ i, attempt ≤ i → i < maxA →
      ∃ e, op i = Outcome.err e ∧ e.matchedBy excs = true) →
    op maxA = Outcome.ok v →
    retryLoop excs maxA op attempt fuel = (Outcome.ok v, maxA) := by
  intro fuel
  induction fuel with
  | zero => intro attempt h1 _ h3 _ _; omega
  | succ n ih =>
    intro attempt h1 h2 h3 hall hok
    by_cases hat : attempt = maxA
    · subst hat
      simp [retryLoop, hok]
    · have hlt : attempt < maxA := lt_of_le_of_ne h3 hat
      obtain ⟨e, hop, hm⟩ := hall attempt le_rfl hlt
      simp only [retryLoop, hop, hm, if_true, if_neg hat]
      exact ih (attempt + 1) (by omega) (by omega) (by omega)
        (fun i hi hi' => hall i (by omega) hi') hok

lemma retryLoop_allFail {α : Type} (excs : List ExcClass) (maxA : Nat)
    (op : Nat → Outcome α) :
    ∀ fuel attempt, attempt + fuel = maxA + 1 → 1 ≤ attempt → attempt ≤ maxA →
    (∀ i, attempt ≤ i → i ≤ maxA →
      ∃ e, op i = Outcome.err e ∧ e.matchedBy excs = true) →
    ∃ e, op maxA = Outcome.err e ∧
      retryLoop excs maxA op attempt fuel = (Outcome.err e, maxA) := by
  intro fuel
  induction fuel with
  | zero => intro attempt h1 _ h3 _; omega
  | succ n ih =>
    intro attempt h1 h2 h3 hall
    by_cases hat : attempt = maxA
    · subst hat
      obtain ⟨e, hop, hm⟩ := hall attempt le_rfl le_rfl
      refine ⟨e, hop, ?_⟩
      simp [retryLoop, hop, hm]
    · have hlt : attempt < maxA := lt_of_le_of_ne h3 hat
      obtain ⟨e, hop, hm⟩ := hall attempt le_rfl (le_of_lt hlt)
      simp only [retryLoop, hop, hm, if_true, if_neg hat]
      exact ih (attempt + 1) (by omega) (by omega) (by omega)
        (fun i hi hi' => hall i (by omega) hi')

lemma retryLoop_nonRetryable {α : Type} (excs : List ExcClass) (maxA : Nat)
    (op : Nat → Outcome α) (j : Nat) (e : Exc) :
    ∀ fuel attempt, attempt + fuel = maxA + 1 → 1 ≤ attempt → attempt ≤ j →
    j ≤ maxA →
    (∀ i, attempt ≤ i → i < j →
      ∃ e', op i = Outcome.err e' ∧ e'.matchedBy excs = true) →
    op j = Outcome.err e → e.matchedBy excs = false →
    retryLoop excs maxA op attempt fuel = (Outcome.err e, j) := by
  intro fuel
  induction fuel with
  | zero => intro attempt h1 _ h3 h4 _ _ _; omega
  | succ n ih =>
    intro attempt h1 h2 h3 h4 hall hop hnm
    by_cases hat : attempt = j
    · subst hat
      simp [retryLoop, hop, hnm]
    · have hlt : attempt < j := lt_of_le_of_ne h3 hat
      obtain ⟨e', hop', hm'⟩ := hall attempt le_rfl hlt
      have hne : attempt ≠ maxA := by omega
      simp only [retryLoop, hop', hm', if_true, if_neg hne]
      exact ih (attempt + 1) (by omega) (by omega) (by omega) h4
        (fun i hi hi' => hall i (by omega) hi') hop hnm

/-- C4: for every wrapped operation and `max_attempts ≥ 1`:
(i) an operation raising retryable exceptions on its first
`max_attempts - 1` invocations and succeeding on the next one makes the
retry wrapper return that success with exactly `max_attempts` invocations;
(ii) an operation raising retryable exceptions on every invocation is
invoked exactly `max_attempts` times and the wrapper re-raises the last
exception unchanged; (iii) a non-retryable exception (after any prefix of
retryable failures) propagates immediately, with no further attempts. -/
theorem retry_handler_attempt_spec {α : Type} (h : RetryHandler)
    (op : Nat → Outcome α) (hmax : 1 ≤ h.maxAttempts) :
    (∀ v : α,
      (∀ i, 1 ≤ i → i < h.maxAttempts →
        ∃ e, op i = Outcome.err e ∧ e.matchedBy h.exceptions = true) →
      op h.maxAttempts = Outcome.ok v →
      h.call op = (Outcome.ok v, h.maxAttempts))
    ∧ ((∀ i, 1 ≤ i → i ≤ h.maxAttempts →
        ∃ e, op i = Outcome.err e ∧ e.matchedBy h.exceptions = true) →
      ∃ e, op h.maxAttempts = Outcome.err e ∧
        h.call op = (Outcome.err e, h.maxAttempts))
    ∧ (∀ j e, 1 ≤ j → j ≤ h.maxAttempts →
      (∀ i, 1 ≤ i → i < j →
        ∃ e', op i = Outcome.err e' ∧ e'.matchedBy h.exceptions = true) →
      op j = Outcome.err e → e.matchedBy h.exceptions = false →
      h.call op = (Outcome.err e, j)) := by
  refine ⟨?_, ?_, ?_⟩
  · intro v hall hok
    exact retryLoop_ok h.exceptions h.maxAttempts op v h.maxAttempts 1
      (by omega) le_rfl hmax (fun i hi hi' => hall i hi hi') hok
  · intro hall
    exact retryLoop_allFail h.exceptions h.maxAttempts op h.maxAttempts 1
      (by omega) le_rfl hmax (fun i hi hi' => hall i hi hi')
  · intro j e hj hj' hall hop hnm
    exact retryLoop_nonRetryable h.exceptions h.maxAttempts op j e
      h.maxAttempts 1 (by omega) le_rfl hj hj'
      (fun i hi hi' => hall i hi hi') hop hnm

/-- Concrete instance of `retry_handler_attempt_spec`: with
`max_attempts = 3` and retryable class `Exception`, an operation failing
twice with a `ValueError` and then returning 42 yields `(ok 42, 3)`. -/
theorem retry_handler_attempt_spec_witness :
    (⟨3, [ExcClass.exception]⟩ : RetryHandler).call
      (fun i => if i < 3 then Outcome.err ⟨ExcClass.valueError, "transient"⟩
                else Outcome.ok (42 : Nat)) = (Outcome.ok 42, 3) := by
  exact (retry_handler_attempt_spec ⟨3, [ExcClass.exception]⟩
    (fun i => if i < 3 then Outcome.err ⟨ExcClass.valueError, "transient"⟩
              else Outcome.ok (42 : Nat)) (by norm_num)).1 42
    (by
      intro i h1 h2
      simp only at h2 ⊢
      interval_cases i <;> exact ⟨_, rfl, rfl⟩)
    (by norm_num)

/-! ## Circuit breaker (`src/utils/resilience.py`, `CircuitBreaker`)

`datetime.now()` is passed in as `now`; `last_failure_time` is an optional
instant.  `CircuitBreaker.call` receives, instead of the Python callable,
the outcome the wrapped operation would produce if it were invoked; the
returned `Bool` records whether the operation actually was invoked. -/

/-- The three circuit-breaker states (`CircuitState` in the source). -/
inductive CircuitState where
  | closed
  | opened
  | halfOpen
  deriving DecidableEq, Repr

/-- The `CircuitBreaker` object: configuration plus mutable state. -/
structure CircuitBreaker where
  failureThreshold : Nat
  recoveryTimeout : ℚ
  expectedException : List ExcClass
  name : String
  state : CircuitState
  failureCount : Nat
  lastFailureTime : Option ℚ
  successCount : Nat
  deriving DecidableEq, Repr

/-- `CircuitBreaker.__init__`: fresh breaker in the Closed state. -/
def CircuitBreaker.mk0 (failureThreshold : Nat) (recoveryTimeout : ℚ)
    (expectedException : List ExcClass) (name : String) : CircuitBreaker :=
  ⟨failureThreshold, recoveryTimeout, expectedException, name,
    CircuitState.closed, 0, none, 0⟩

/-- `CircuitBreaker._should_attempt_reset`: true iff a failure was recorded
and at least `recovery_timeout` seconds have elapsed since it. -/
def CircuitBreaker.shouldAttemptReset (b : CircuitBreaker) (now : ℚ) : Bool :=
  match b.lastFailureTime with
  | none => false
  | some t => decide (b.recoveryTimeout ≤ now - t)

/-- `CircuitBreaker._on_success`: reset `failure_count`, bump
`success_count`, and close the breaker if it was half-open. -/
def CircuitBreaker.onSuccess (b : CircuitBreaker) : CircuitBreaker :=
  { b with
    failureCount := 0
    successCount := b.successCount + 1
    state := if b.state = CircuitState.halfOpen then CircuitState.closed
             else b.state }

/-- `CircuitBreaker._on_failure`: bump `failure_count`, stamp
`last_failure_time`, and open the breaker once the threshold is reached. -/
def CircuitBreaker.onFailure (b : CircuitBreaker) (now : ℚ) : CircuitBreaker :=
  { b with
    failureCount := b.failureCount + 1
    lastFailureTime := some now
    state := if b.failureThreshold ≤ b.failureCount + 1 then CircuitState.opened
             else b.state }

/-- The exception raised by the open-circuit fail-fast path of
`CircuitBreaker.call`: a plain built-in `Exception` (the source has no
dedicated `CircuitOpenError` class). -/
def circuitOpenExc (name : String) : Exc :=
  ⟨ExcClass.exception, "Circuit breaker '" ++ name ++ "' is OPEN"⟩

/-- `CircuitBreaker.call`: given the current instant and the outcome `r`
the wrapped operation would produce, return the updated breaker, the
outcome of the call, and whether the operation was invoked. -/
def CircuitBreaker.call {α : Type} (b : CircuitBreaker) (now : ℚ)
    (r : Outcome α) : CircuitBreaker × Outcome α × Bool :=
  if b.state = CircuitState.opened ∧ ¬ b.shouldAttemptReset now then
    (b, Outcome.err (circuitOpenExc b.name), false)
  else
    let b1 := if b.state = CircuitState.opened then
                { b with state := CircuitState.halfOpen }
              else b
    match r with
    | Outcome.ok v => (b1.onSuccess, Outcome.ok v, true)
    | Outcome.err e =>
      if e.matchedBy b.expectedException then
        (b1.onFailure now, Outcome.err e, true)
      else (b1, Outcome.err e, true)

/-- Reachability invariant of the breaker: away from the Closed state the
failure counter has already reached the threshold and a failure instant is
recorded. -/
def CircuitBreaker.inv (b : CircuitBreaker) : Prop :=
  b.state ≠ CircuitState.closed →
    b.failureThreshold ≤ b.failureCount ∧ b.lastFailureTime ≠ none

/-- Run a single-threaded sequence of calls: each event is the instant of
the call paired with the outcome the operation would produce. -/
def CircuitBreaker.run {α : Type} (b : CircuitBreaker)
    (trace : List (ℚ × Outcome α)) : CircuitBreaker :=
  trace.foldl (fun st ev => (st.call ev.1 ev.2).1) b

lemma circuitBreaker_inv_step {α : Type} (b : CircuitBreaker) (now : ℚ)
    (r : Outcome α) (hinv : b.inv) : (b.call now r).1.inv := by
  cases hsb : b.state with
  | closed =>
    rcases r with v | e
    · simp [CircuitBreaker.call, CircuitBreaker.onSuccess, CircuitBreaker.inv,
        hsb]
    · by_cases hm : e.matchedBy b.expectedException
      · simp [CircuitBreaker.call, CircuitBreaker.onFailure,
          CircuitBreaker.inv, hsb, hm]
      · simp [CircuitBreaker.call, CircuitBreaker.inv, hsb, hm]
  | opened =>
    have hI := hinv (by simp [hsb])
    by_cases hres : b.shouldAttemptReset now
    · rcases r with v | e
      · simp [CircuitBreaker.call, CircuitBreaker.onSuccess,
          CircuitBreaker.inv, hsb, hres]
      · by_cases hm : e.matchedBy b.expectedException
        · simp [CircuitBreaker.call, CircuitBreaker.onFailure,
            CircuitBreaker.inv, hsb, hres, hm]
          split_ifs with h1 <;> simp_all
          omega
        · simp [CircuitBreaker.call, CircuitBreaker.inv, hsb, hres, hm]
          exact ⟨hI.1, hI.2⟩
    · simp [CircuitBreaker.call, CircuitBreaker.inv, hsb, hres]
      exact ⟨hI.1, hI.2⟩
  | halfOpen =>
    have hI := hinv (by simp [hsb])
    rcases r with v | e
    · simp [CircuitBreaker.call, CircuitBreaker.onSuccess, CircuitBreaker.inv,
        hsb]
    · by_cases hm : e.matchedBy b.expectedException
      · simp [CircuitBreaker.call, CircuitBreaker.onFailure,
          CircuitBreaker.inv, hsb, hm]
        split_ifs with h1 <;> simp_all
        omega
      · simp [CircuitBreaker.call, CircuitBreaker.inv, hsb, hm]
        exact ⟨hI.1, hI.2⟩

lemma circuitBreaker_inv_run {α : Type} (b : CircuitBreaker)
    (trace : List (ℚ × Outcome α)) (hinv : b.inv) : (b.run trace).inv := by
  induction trace generalizing b with
  | nil => exact hinv
  | cons ev tl ih =>
    exact ih _ (circuitBreaker_inv_step b ev.1 ev.2 hinv)

/-- C1: the circuit breaker is a three-state machine.  For every breaker
state reachable from a fresh breaker (the invariant `inv`, shown below to
hold along every single-threaded sequence of call outcomes):
(1) from Closed, a matching failure increments `failure_count` and the
state becomes Open exactly when the count reaches `failure_threshold`;
(2) in Open with the recovery timeout not yet elapsed, `call` raises
without invoking the wrapped operation and changes nothing;
(3) once `now - last_failure_time ≥ recovery_timeout`, exactly one trial
call is admitted: a trial success moves the state to Closed and resets
`failure_count` to 0, a trial (matching) failure returns the state to
Open; (4) the same holds from the HalfOpen state itself; (5) the
invariant holds along every trace from a fresh breaker. -/
theorem circuit_breaker_state_machine {α : Type} (b : CircuitBreaker)
    (now : ℚ) (hinv : b.inv) :
    (∀ e : Exc, b.state = CircuitState.closed →
      e.matchedBy b.expectedException = true →
      (b.call now (Outcome.err (α := α) e)).1.failureCount =
          b.failureCount + 1 ∧
      ((b.call now (Outcome.err (α := α) e)).1.state = CircuitState.opened ↔
        b.failureThreshold ≤ b.failureCount + 1) ∧
      (b.failureCount + 1 < b.failureThreshold →
        (b.call now (Outcome.err (α := α) e)).1.state = CircuitState.closed))
    ∧ (b.state = CircuitState.opened → b.shouldAttemptReset now = false →
      ∀ r : Outcome α,
        b.call now r = (b, Outcome.err (circuitOpenExc b.name), false))
    ∧ (b.state = CircuitState.opened → b.shouldAttemptReset now = true →
      (∀ v : α, (b.call now (Outcome.ok v)).2.2 = true ∧
        (b.call now (Outcome.ok v)).1.state = CircuitState.closed ∧
        (b.call now (Outcome.ok v)).1.failureCount = 0)
      ∧ (∀ e : Exc, e.matchedBy b.expectedException = true →
        (b.call now (Outcome.err (α := α) e)).2.2 = true ∧
        (b.call now (Outcome.err (α := α) e)).1.state = CircuitState.opened))
    ∧ (b.state = CircuitState.halfOpen →
      (∀ v : α, (b.call now (Outcome.ok v)).1.state = CircuitState.closed ∧
        (b.call now (Outcome.ok v)).1.failureCount = 0)
      ∧ (∀ e : Exc, e.matchedBy b.expectedException = true →
        (b.call now (Outcome.err (α := α) e)).1.state = CircuitState.opened))
    ∧ (∀ (ft : Nat) (rt : ℚ) (ex : List ExcClass) (nm : String)
        (trace : List (ℚ × Outcome α)),
        ((CircuitBreaker.mk0 ft rt ex nm).run trace).inv) := by
  refine ⟨?_, ?_, ?_, ?_, ?_⟩
  · intro e hsb hm
    refine ⟨?_, ?_, ?_⟩
    · simp [CircuitBreaker.call, CircuitBreaker.onFailure, hsb, hm]
    · by_cases hth : b.failureThreshold ≤ b.failureCount + 1 <;>
        simp [CircuitBreaker.call, CircuitBreaker.onFailure, hsb, hm, hth]
    · intro hlt
      have hth : ¬ b.failureThreshold ≤ b.failureCount + 1 := by omega
      simp [CircuitBreaker.call, CircuitBreaker.onFailure, hsb, hm, hth]
  · intro hsb hres r
    simp [CircuitBreaker.call, hsb, hres]
  · intro hsb hres
    constructor
    · intro v
      refine ⟨?_, ?_, ?_⟩ <;>
        simp [CircuitBreaker.call, CircuitBreaker.onSuccess, hsb, hres]
    · intro e hm
      have hI := hinv (by simp [hsb])
      constructor
      · simp [CircuitBreaker.call, hsb, hres, hm]
      · simp [CircuitBreaker.call, CircuitBreaker.onFailure, hsb, hres, hm,
          if_pos (by omega : b.failureThreshold ≤ b.failureCount + 1)]
  · intro hsb
    have hI := hinv (by simp [hsb])
    constructor
    · intro v
      constructor <;>
        simp [CircuitBreaker.call, CircuitBreaker.onSuccess, hsb]
    · intro e hm
      simp [CircuitBreaker.call, CircuitBreaker.onFailure, hsb, hm,
        if_pos (by omega : b.failureThreshold ≤ b.failureCount + 1)]
  · intro ft rt ex nm trace
    exact circuitBreaker_inv_run _ trace (by
      intro h
      simp [CircuitBreaker.mk0] at h)

/-- Concrete instance of `circuit_breaker_state_machine`: a breaker with
threshold 2 that is Open after 2 failures at time 0 fails fast at time 5
(recovery timeout 30 not elapsed), leaving the breaker untouched and not
invoking the operation. -/
theorem circuit_breaker_state_machine_witness :
    (⟨2, 30, [ExcClass.exception], "db", CircuitState.opened, 2, some 0, 0⟩ :
        CircuitBreaker).call 5 (Outcome.ok (7 : Nat)) =
      (⟨2, 30, [ExcClass.exception], "db", CircuitState.opened, 2, some 0, 0⟩,
        Outcome.err (circuitOpenExc "db"), false) := by
  exact (circuit_breaker_state_machine
    (⟨2, 30, [ExcClass.exception], "db", CircuitState.opened, 2, some 0, 0⟩ :
      CircuitBreaker) 5 (fun _ => ⟨le_refl 2, by simp⟩)).2.1 rfl
    (by simp [CircuitBreaker.shouldAttemptReset]; norm_num) (Outcome.ok 7)

/-- C6 (counterexample to the stated claim): the open-circuit fail-fast of
`CircuitBreaker.call` raises a plain built-in `Exception` — its class is
exactly the class of a generic operation failure such as
`Exception("boom")`, and it is caught by any `except Exception` handler —
not a distinct `CircuitOpenError` type (no such class exists in the
source). -/
theorem circuit_open_not_distinct_counterexample :
    ((⟨5, 60, [ExcClass.exception], "api", CircuitState.opened, 5, some 0, 0⟩ :
        CircuitBreaker).call 10 (Outcome.ok (0 : Nat))).2.1 =
      Outcome.err (circuitOpenExc "api") ∧
    circuitOpenExc "api" =
      ⟨ExcClass.exception, "Circuit breaker 'api' is OPEN"⟩ ∧
    (circuitOpenExc "api").cls = (⟨ExcClass.exception, "boom"⟩ : Exc).cls ∧
    (circuitOpenExc "api").matchedBy [ExcClass.exception] = true := by
  refine ⟨?_, rfl, rfl, rfl⟩
  have hres : (⟨5, 60, [ExcClass.exception], "api", CircuitState.opened, 5,
      some 0, 0⟩ : CircuitBreaker).shouldAttemptReset 10 = false := by
    simp [CircuitBreaker.shouldAttemptReset]; norm_num
  simp [CircuitBreaker.call, hres]

/-- C6 (amended): when the breaker is Open and the recovery timeout has
not elapsed, `call` raises an `Exception` whose message is
`"Circuit breaker '<name>' is OPEN"` — the same built-in class as an
ordinary failure, not a distinct type — the wrapped operation is never
invoked, and the breaker's state and counters are unchanged. -/
theorem circuit_open_fail_fast {α : Type} (b : CircuitBreaker) (now : ℚ)
    (hsb : b.state = CircuitState.opened)
    (hres : b.shouldAttemptReset now = false) (r : Outcome α) :
    b.call now r = (b, Outcome.err (circuitOpenExc b.name), false) ∧
    (circuitOpenExc b.name).cls = ExcClass.exception := by
  refine ⟨?_, rfl⟩
  simp [CircuitBreaker.call, hsb, hres]

/-- Concrete instance of `circuit_open_fail_fast` at time 10 on a breaker
that opened at time 0 with recovery timeout 60. -/
theorem circuit_open_fail_fast_witness :
    (⟨5, 60, [ExcClass.exception], "api2", CircuitState.opened, 5, some 0, 0⟩ :
        CircuitBreaker).call 10
        (Outcome.err (α := Nat) ⟨ExcClass.exception, "boom"⟩) =
      (⟨5, 60, [ExcClass.exception], "api2", CircuitState.opened, 5, some 0,
        0⟩, Outcome.err (circuitOpenExc "api2"), false) := by
  exact (circuit_open_fail_fast (α := Nat)
    (⟨5, 60, [ExcClass.exception], "api2", CircuitState.opened, 5, some 0, 0⟩ :
      CircuitBreaker) 10 rfl
    (by simp [CircuitBreaker.shouldAttemptReset]; norm_num)
    (Outcome.err ⟨ExcClass.exception, "boom"⟩)).1

/-! ## Fallback handler and resilience manager
(`src/utils/resilience.py`, `FallbackHandler`, `ResilienceManager`) -/

/-- A `FallbackHandler`: an optional fallback function (modelled by the
outcome it would produce on the original call's arguments) and an optional
static fallback value (`fallback_value is not None` in the source is the
`some` case). -/
structure FallbackHandler (α : Type) where
  fallbackFunc : Option (Outcome α)
  fallbackValue : Option α

/-- One call of the function wrapped by `FallbackHandler.__call__`.  The
`except Exception` clause catches every modelled exception class (they all
derive `Exception`): on failure use the fallback function if configured,
else the fallback value if configured, else re-raise. -/
def FallbackHandler.wrap {α : Type} (f : FallbackHandler α) (r : Outcome α) :
    Outcome α :=
  match r with
  | Outcome.ok v => Outcome.ok v
  | Outcome.err e =>
    match f.fallbackFunc with
    | some fr => fr
    | none =>
      match f.fallbackValue with
      | some v => Outcome.ok v
      | none => Outcome.err e

/-- The named registries of `ResilienceManager`, modelled as the partial
maps the Python dicts denote. -/
structure ResilienceManager (α : Type) where
  circuitBreakers : String → Option CircuitBreaker
  retryHandlers : String → Option RetryHandler
  fallbackHandlers : String → Option (FallbackHandler α)

/-- `name and name in registry`: an optional name resolved in a registry. -/
def regGet {β : Type} (reg : String → Option β) : Option String → Option β
  | none => none
  | some n => reg n

/-- Store the updated state of breaker `n` (Python mutates the breaker
object held in the registry in place). -/
def ResilienceManager.setBreaker {α : Type} (m : ResilienceManager α)
    (n : String) (b : CircuitBreaker) : ResilienceManager α :=
  { m with circuitBreakers := fun s =>
      if s = n then some b else m.circuitBreakers s }

/-- `ResilienceManager.resilient_call`.  The layers are applied exactly in
the source's order: the fallback decorator is applied to `func` first,
then the retry decorator, and the circuit breaker finally executes the
resulting callable.  Returns the updated manager, the outcome delivered
to the caller, and the number of invocations of the underlying
operation. -/
def ResilienceManager.resilientCall {α : Type} (m : ResilienceManager α)
    (now : ℚ) (op : Nat → Outcome α)
    (cbName retryName fbName : Option String) :
    ResilienceManager α × Outcome α × Nat :=
  let fbOp : Nat → Outcome α :=
    match regGet m.fallbackHandlers fbName with
    | some f => fun i => f.wrap (op i)
    | none => op
  let composite : Outcome α × Nat :=
    match regGet m.retryHandlers retryName with
    | some r => r.call fbOp
    | none => (fbOp 1, 1)
  match cbName, regGet m.circuitBreakers cbName with
  | some n, some b =>
    let res := b.call now composite.1
    (m.setBreaker n res.1, res.2.1, if res.2.2 then composite.2 else 0)
  | _, _ => (m, composite.1, composite.2)

lemma setBreaker_get {α : Type} (m : ResilienceManager α) (n : String)
    (b : CircuitBreaker) : (m.setBreaker n b).circuitBreakers n = some b := by
  simp [ResilienceManager.setBreaker]

/-- C2 (counterexample to the stated claim): with circuit breaker `"cb"`
Open (opened at time 0, recovery timeout 60, called at time 5) and
fallback `"fb"` configured with static value 99, `resilient_call` raises
the circuit-open exception to the caller with the operation never invoked
— even though the configured fallback would have resolved that exception
to `ok 99` had it been the outermost layer. -/
theorem resilient_call_fallback_not_outermost_counterexample :
    ((⟨fun s => if s = "cb" then
          some ⟨1, 60, [ExcClass.exception], "cb", CircuitState.opened, 1,
            some 0, 0⟩ else none,
        fun _ => none,
        fun s => if s = "fb" then some ⟨none, some 99⟩ else none⟩ :
        ResilienceManager Nat).resilientCall 5 (fun _ => Outcome.ok 1)
        (some "cb") none (some "fb")).2 =
      (Outcome.err (circuitOpenExc "cb"), 0) ∧
    FallbackHandler.wrap (⟨none, some 99⟩ : FallbackHandler Nat)
      (Outcome.err (circuitOpenExc "cb")) = Outcome.ok 99 := by
  constructor
  · have hres : (⟨1, 60, [ExcClass.exception], "cb", CircuitState.opened, 1,
        some 0, 0⟩ : CircuitBreaker).shouldAttemptReset 5 = false := by
      simp [CircuitBreaker.shouldAttemptReset]; norm_num
    simp [ResilienceManager.resilientCall, regGet,
      CircuitBreaker.call, hres, FallbackHandler.wrap]
  · rfl

/-- C2 (amended): `resilient_call` composes the layers in the order
circuitBreaker∘retry∘fallback — the fallback is the *innermost* layer:
(i) a circuit-open fail-fast propagates to the caller with the operation
never invoked, regardless of the configured fallback; (ii) an operation
failure resolved by the fallback is resolved before the retry layer sees
it (exactly one attempt is made) and is recorded by the breaker as a
success. -/
theorem resilient_call_layer_order {α : Type} (m : ResilienceManager α)
    (now : ℚ) (op : Nat → Outcome α) (cbn rn fbn : String)
    (b : CircuitBreaker) (r : RetryHandler) (f : FallbackHandler α)
    (hcb : m.circuitBreakers cbn = some b)
    (hr : m.retryHandlers rn = some r)
    (hf : m.fallbackHandlers fbn = some f) :
    (b.state = CircuitState.opened → b.shouldAttemptReset now = false →
      (m.resilientCall now op (some cbn) (some rn) (some fbn)).2 =
        (Outcome.err (circuitOpenExc b.name), 0))
    ∧ (∀ v e, b.state = CircuitState.closed → 1 ≤ r.maxAttempts →
      f.fallbackFunc = none → f.fallbackValue = some v →
      op 1 = Outcome.err e →
      (m.resilientCall now op (some cbn) (some rn) (some fbn)).2 =
        (Outcome.ok v, 1) ∧
      (m.resilientCall now op (some cbn) (some rn)
          (some fbn)).1.circuitBreakers cbn = some b.onSuccess) := by
  constructor
  · intro hsb hres
    simp [ResilienceManager.resilientCall, regGet, hcb, hr, hf,
      CircuitBreaker.call, hsb, hres]
  · intro v e hsb hmax hffn hfv hop
    have hwrap : (fun i => f.wrap (op i)) 1 = Outcome.ok v := by
      simp [FallbackHandler.wrap, hop, hffn, hfv]
    have hretry : r.call (fun i => f.wrap (op i)) = (Outcome.ok v, 1) := by
      unfold RetryHandler.call
      obtain ⟨k, hk⟩ : ∃ k, r.maxAttempts = k + 1 :=
        ⟨r.maxAttempts - 1, by omega⟩
      rw [hk]
      simp only [retryLoop, hwrap]
    have hcall : b.call now (Outcome.ok v) =
        (b.onSuccess, Outcome.ok v, true) := by
      simp [CircuitBreaker.call, hsb]
    constructor
    · simp [ResilienceManager.resilientCall, regGet, hcb, hr, hf, hretry,
        hcall]
    · have hlook := setBreaker_get (α := α) m cbn b.onSuccess
      simp [ResilienceManager.resilientCall, regGet, hcb, hr, hf, hretry,
        hcall, hlook]

/-- Concrete instance of `resilient_call_layer_order`: a closed breaker,
retry with 3 attempts, fallback value 99, operation always failing —
`resilient_call` returns `ok 99` after exactly one invocation. -/
theorem resilient_call_layer_order_witness :
    ((⟨fun s => if s = "cb" then
          some (CircuitBreaker.mk0 5 60 [ExcClass.exception] "cb") else none,
        fun s => if s = "rt" then some ⟨3, [ExcClass.exception]⟩ else none,
        fun s => if s = "fb" then some ⟨none, some 99⟩ else none⟩ :
        ResilienceManager Nat).resilientCall 0
        (fun _ => Outcome.err ⟨ExcClass.exception, "boom"⟩)
        (some "cb") (some "rt") (some "fb")).2 = (Outcome.ok 99, 1) :=
  ((resilient_call_layer_order
    (⟨fun s => if s = "cb" then
          some (CircuitBreaker.mk0 5 60 [ExcClass.exception] "cb") else none,
        fun s => if s = "rt" then some ⟨3, [ExcClass.exception]⟩ else none,
        fun s => if s = "fb" then some ⟨none, some 99⟩ else none⟩ :
      ResilienceManager Nat) 0
    (fun _ => Outcome.err ⟨ExcClass.exception, "boom"⟩) "cb" "rt" "fb"
    (CircuitBreaker.mk0 5 60 [ExcClass.exception] "cb")
    ⟨3, [ExcClass.exception]⟩ ⟨none, some 99⟩ rfl rfl rfl).2 99
    ⟨ExcClass.exception, "boom"⟩ rfl (by norm_num) rfl rfl rfl).1

/-! ## Memory cache (`src/utils/cache.py`, `CacheItem`, `MemoryCache`)

The `OrderedDict` is an association list: front = oldest (least recently
touched), back = most recently touched.  Keys are unique (the dict
invariant), captured by `MemoryCache.WF`. -/

/-- `CacheItem`: a stored value with its creation instant and TTL. -/
structure CacheItem (V : Type) where
  key : String
  value : V
  createdAt : ℚ
  ttl : ℚ
  deriving DecidableEq, Repr

/-- `CacheItem.is_expired`: `now > created_at + ttl` (strict). -/
def CacheItem.isExpired {V : Type} (it : CacheItem V) (now : ℚ) : Bool :=
  decide (it.createdAt + it.ttl < now)

/-- The `stats` counter dict of `MemoryCache`. -/
structure CacheStats where
  hits : Nat
  misses : Nat
  sets : Nat
  deletes : Nat
  expirations : Nat
  deriving DecidableEq, Repr

/-- `MemoryCache`: bounded TTL cache with LRU order. -/
structure MemoryCache (V : Type) where
  maxSize : Nat
  defaultTtl : ℚ
  cache : List (String × CacheItem V)
  stats : CacheStats
  deriving Repr

/-- `MemoryCache.__init__`. -/
def MemoryCache.mk0 {V : Type} (maxSize : Nat) (defaultTtl : ℚ) :
    MemoryCache V :=
  ⟨maxSize, defaultTtl, [], ⟨0, 0, 0, 0, 0⟩⟩

/-- `key in self.cache` / `self.cache[key]`: the entry stored at `key`. -/
def findItem {V : Type} (l : List (String × CacheItem V)) (k : String) :
    Option (CacheItem V) :=
  (l.find? fun p => p.1 == k).map Prod.snd

/-- `del self.cache[key]`: remove the binding of `key` (at most one exists
by the dict invariant). -/
def eraseKey {V : Type} (l : List (String × CacheItem V)) (k : String) :
    List (String × CacheItem V) :=
  l.eraseP fun p => p.1 == k

/-- Dict well-formedness: the stored keys are distinct. -/
def MemoryCache.WF {V : Type} (c : MemoryCache V) : Prop :=
  (c.cache.map Prod.fst).Nodup

/-- `MemoryCache.set`: drop an existing binding of the key, evict the
least-recently-touched entry (the front of the `OrderedDict`) if at
capacity, then append the fresh item at the most-recent end.
(For `max_size = 0` and an empty cache the source's
`next(iter(self.cache))` would raise `StopIteration`; the embedding's
`List.drop 1` is a no-op there, so all capacity theorems assume
`1 ≤ max_size`.) -/
def MemoryCache.set {V : Type} (c : MemoryCache V) (now : ℚ) (k : String)
    (v : V) (ttl : Option ℚ) : MemoryCache V :=
  let t := ttl.getD c.defaultTtl
  let l1 := if (findItem c.cache k).isSome then eraseKey c.cache k
            else c.cache
  let l2 := if c.maxSize ≤ l1.length then l1.drop 1 else l1
  { c with
    cache := l2 ++ [(k, ⟨k, v, now, t⟩)]
    stats := { c.stats with sets := c.stats.sets + 1 } }

/-- `MemoryCache.get`: miss on absent key; an expired entry found is
deleted (a miss); a hit moves the entry to the most-recent end and
returns its value. -/
def MemoryCache.get {V : Type} (c : MemoryCache V) (now : ℚ) (k : String)
    (default : V) : MemoryCache V × V :=
  match findItem c.cache k with
  | none =>
    ({ c with stats := { c.stats with misses := c.stats.misses + 1 } },
      default)
  | some it =>
    if it.isExpired now then
      ({ c with
          cache := eraseKey c.cache k
          stats := { c.stats with
            expirations := c.stats.expirations + 1
            misses := c.stats.misses + 1 } }, default)
    else
      ({ c with
          cache := eraseKey c.cache k ++ [(k, it)]
          stats := { c.stats with hits := c.stats.hits + 1 } }, it.value)

/-- `MemoryCache.delete`. -/
def MemoryCache.delete {V : Type} (c : MemoryCache V) (k : String) :
    MemoryCache V :=
  if (findItem c.cache k).isSome then
    { c with
      cache := eraseKey c.cache k
      stats := { c.stats with deletes := c.stats.deletes + 1 } }
  else c

/-- `MemoryCache.clear`. -/
def MemoryCache.clear {V : Type} (c : MemoryCache V) : MemoryCache V :=
  { c with cache := [], stats := ⟨0, 0, 0, 0, 0⟩ }

/-- `MemoryCache.cleanup_expired`: delete every expired entry. -/
def MemoryCache.cleanupExpired {V : Type} (c : MemoryCache V) (now : ℚ) :
    MemoryCache V :=
  { c with
    cache := c.cache.filter fun p => ! p.2.isExpired now
    stats := { c.stats with
      expirations := c.stats.expirations +
        (c.cache.filter fun p => p.2.isExpired now).length } }

/-- One cache operation of a single-threaded client session. -/
inductive CacheOp (V : Type) where
  | set (now : ℚ) (k : String) (v : V) (ttl : Option ℚ)
  | get (now : ℚ) (k : String) (default : V)
  | delete (k : String)
  | clear
  | cleanup (now : ℚ)

/-- Apply one operation to the cache state. -/
def MemoryCache.applyOp {V : Type} (c : MemoryCache V) :
    CacheOp V → MemoryCache V
  | CacheOp.set now k v ttl => c.set now k v ttl
  | CacheOp.get now k d => (c.get now k d).1
  | CacheOp.delete k => c.delete k
  | CacheOp.clear => c.clear
  | CacheOp.cleanup now => c.cleanupExpired now

/-- Apply a sequence of operations. -/
def MemoryCache.applyOps {V : Type} (c : MemoryCache V)
    (ops : List (CacheOp V)) : MemoryCache V :=
  ops.foldl MemoryCache.applyOp c

lemma findItem_none_iff {V : Type} {l : List (String × CacheItem V)}
    {k : String} : findItem l k = none ↔ ∀ p ∈ l, p.1 ≠ k := by
  constructor
  · intro h p hp
    have h0 : l.find? (fun p => p.1 == k) = none := by
      simpa [findItem, Option.map_eq_none'] using h
    simpa using List.find?_eq_none.mp h0 p hp
  · intro h
    simp only [findItem, Option.map_eq_none']
    exact List.find?_eq_none.mpr fun p hp => by simpa using h p hp

lemma findItem_some {V : Type} {l : List (String × CacheItem V)} {k : String}
    {it : CacheItem V} (h : findItem l k = some it) :
    ∃ pr, pr ∈ l ∧ l.find? (fun p => p.1 == k) = some pr ∧ pr.2 = it ∧
      pr.1 = k := by
  simp only [findItem, Option.map_eq_some'] at h
  obtain ⟨pr, hfind, hsnd⟩ := h
  exact ⟨pr, List.mem_of_find?_eq_some hfind, hfind, hsnd,
    by simpa using List.find?_some hfind⟩

lemma length_eraseKey_of_found {V : Type} {l : List (String × CacheItem V)}
    {k : String} {it : CacheItem V} (h : findItem l k = some it) :
    (eraseKey l k).length + 1 = l.length := by
  obtain ⟨pr, hmem, hfind, _, hk⟩ := findItem_some h
  exact List.length_eraseP_add_one hmem (by simpa using hk)

lemma findItem_append_self {V : Type} {l : List (String × CacheItem V)}
    {k : String} (it : CacheItem V) (h : ∀ p ∈ l, p.1 ≠ k) :
    findItem (l ++ [(k, it)]) k = some it := by
  have h1 : l.find? (fun p => p.1 == k) = none :=
    List.find?_eq_none.mpr fun p hp => by simpa using h p hp
  simp [findItem, List.find?_append, h1]

lemma eraseKey_append_self {V : Type} {l : List (String × CacheItem V)}
    {k : String} (it : CacheItem V) (h : ∀ p ∈ l, p.1 ≠ k) :
    eraseKey (l ++ [(k, it)]) k = l := by
  induction l with
  | nil => simp [eraseKey, List.eraseP]
  | cons x xs ih =>
    have hx : (x.1 == k) = false := by
      simpa using h x (List.mem_cons_self x xs)
    simp only [eraseKey, List.cons_append, List.eraseP_cons, hx, cond_false]
    exact congrArg (x :: ·) (ih fun p hp => h p (List.mem_cons_of_mem x hp))

lemma not_key_of_eraseKey {V : Type} {l : List (String × CacheItem V)}
    {k : String} (hwf : (l.map Prod.fst).Nodup) :
    ∀ p ∈ eraseKey l k, p.1 ≠ k := by
  induction l with
  | nil => simp [eraseKey, List.eraseP]
  | cons x xs ih =>
    by_cases hx : (x.1 == k) = true
    · have hk : x.1 = k := by simpa using hx
      simp only [eraseKey, List.eraseP_cons, hx, if_true]
      intro p hp hpk
      have : x.1 ∈ xs.map Prod.fst := by
        rw [hk]
        exact hpk ▸ List.mem_map_of_mem Prod.fst hp
      exact (List.nodup_cons.mp (by simpa using hwf)).1 this
    · simp only [eraseKey, List.eraseP_cons, hx, Bool.false_eq_true,
        if_false]
      intro p hp
      rcases List.mem_cons.mp hp with rfl | hp'
      · simpa using hx
      · exact ih (List.nodup_cons.mp (by simpa using hwf)).2 p hp'

/-- The cache after `set`: some prefix (the survivors, none of them bound
to `k`) followed by the freshly inserted item at the most-recent end. -/
lemma set_cache_spec {V : Type} (c : MemoryCache V) (hwf : c.WF) (now : ℚ)
    (k : String) (v : V) (ttl : Option ℚ) :
    ∃ l2, (c.set now k v ttl).cache =
      l2 ++ [(k, ⟨k, v, now, ttl.getD c.defaultTtl⟩)] ∧
      ∀ p ∈ l2, p.1 ≠ k := by
  refine ⟨_, rfl, ?_⟩
  intro p hp
  have hl1 : ∀ q ∈ (if (findItem c.cache k).isSome then eraseKey c.cache k
      else c.cache), q.1 ≠ k := by
    by_cases h1 : (findItem c.cache k).isSome
    · simp only [h1, if_true]
      exact not_key_of_eraseKey hwf
    · simp only [h1, Bool.false_eq_true, if_false]
      exact findItem_none_iff.mp (Option.not_isSome_iff_eq_none.mp h1)
  set l1 := if (findItem c.cache k).isSome then eraseKey c.cache k
    else c.cache with hl1def
  by_cases h2 : c.maxSize ≤ l1.length
  · simp only [h2, if_true] at hp
    exact hl1 p (List.mem_of_mem_drop hp)
  · simp only [h2, if_false] at hp
    exact hl1 p hp

lemma applyOp_maxSize {V : Type} (c : MemoryCache V) (op : CacheOp V) :
    (c.applyOp op).maxSize = c.maxSize := by
  cases op with
  | set now k v ttl => rfl
  | get now k d =>
    simp only [MemoryCache.applyOp, MemoryCache.get]
    cases findItem c.cache k with
    | none => rfl
    | some it => by_cases h : it.isExpired now <;> simp [h]
  | delete k =>
    simp only [MemoryCache.applyOp, MemoryCache.delete]
    by_cases h : (findItem c.cache k).isSome <;> simp [h]
  | clear => rfl
  | cleanup now => rfl

lemma applyOp_length_le {V : Type} (c : MemoryCache V) (op : CacheOp V)
    (hm : 1 ≤ c.maxSize) (h : c.cache.length ≤ c.maxSize) :
    (c.applyOp op).cache.length ≤ c.maxSize := by
  cases op with
  | set now k v ttl =>
    show (c.set now k v ttl).cache.length ≤ c.maxSize
    have he : (List.eraseP (fun p => p.1 == k) c.cache).length ≤
        c.cache.length := List.length_eraseP_le _
    unfold MemoryCache.set
    simp only [eraseKey, List.length_append, List.length_cons,
      List.length_nil]
    by_cases h1 : (findItem c.cache k).isSome <;>
      simp only [h1, if_true, Bool.false_eq_true, if_false]
    · by_cases h2 : c.maxSize ≤
          (List.eraseP (fun p => p.1 == k) c.cache).length <;>
        simp only [h2, if_true, if_false, List.length_drop] <;> omega
    · by_cases h2 : c.maxSize ≤ c.cache.length <;>
        simp only [h2, if_true, if_false, List.length_drop] <;> omega
  | get now k d =>
    simp only [MemoryCache.applyOp, MemoryCache.get]
    cases hf : findItem c.cache k with
    | none => simpa using h
    | some it =>
      have hlen := length_eraseKey_of_found hf
      by_cases hexp : it.isExpired now <;> simp only [hexp, if_true,
        Bool.false_eq_true, if_false]
      · exact le_trans (List.length_eraseP_le _) h
      · simp only [List.length_append, List.length_cons, List.length_nil]
        omega
  | delete k =>
    simp only [MemoryCache.applyOp, MemoryCache.delete]
    by_cases h1 : (findItem c.cache k).isSome <;>
      simp only [h1, if_true, Bool.false_eq_true, if_false]
    · exact le_trans (List.length_eraseP_le _) h
    · exact h
  | clear =>
    simp only [MemoryCache.applyOp, MemoryCache.clear, List.length_nil]
    omega
  | cleanup now =>
    simp only [MemoryCache.applyOp, MemoryCache.cleanupExpired]
    exact le_trans (List.length_filter_le _ _) h

lemma applyOps_length_le {V : Type} (c : MemoryCache V)
    (ops : List (CacheOp V)) (hm : 1 ≤ c.maxSize)
    (h : c.cache.length ≤ c.maxSize) :
    (c.applyOps ops).cache.length ≤ (c.applyOps ops).maxSize ∧
      (c.applyOps ops).maxSize = c.maxSize := by
  induction ops generalizing c with
  | nil => exact ⟨h, rfl⟩
  | cons op tl ih =>
    have hms := applyOp_maxSize c op
    have hlen := applyOp_length_le c op hm h
    have hstep := ih (c.applyOp op) (hms ▸ hm) (hms ▸ hlen)
    exact ⟨hstep.1, hstep.2.trans hms⟩

/-- C3: the cache never holds more than `max_size` entries along any
single-threaded operation sequence from a fresh cache (for `max_size ≥ 1`);
a `set` of a new distinct key while the cache holds `max_size` entries
evicts exactly one entry — the least-recently-used one, i.e. the front of
the recency order — leaving all other entries unchanged and appending the
new entry at the most-recent end; recency is refreshed by hits (`get`
moves the entry to the most-recent end) and by `set` (the written entry
ends up at the most-recent end). -/
theorem cache_lru_bound_and_eviction {V : Type} :
    (∀ (M : Nat) (ttl : ℚ) (ops : List (CacheOp V)), 1 ≤ M →
      ((MemoryCache.mk0 (V := V) M ttl).applyOps ops).cache.length ≤ M)
    ∧ (∀ (c : MemoryCache V) (now : ℚ) (k : String) (v : V)
        (ttl : Option ℚ), 1 ≤ c.maxSize → c.cache.length = c.maxSize →
      findItem c.cache k = none →
      ∃ lru tl, c.cache = lru :: tl ∧
        (c.set now k v ttl).cache =
          tl ++ [(k, ⟨k, v, now, ttl.getD c.defaultTtl⟩)])
    ∧ (∀ (c : MemoryCache V) (now : ℚ) (k : String) (d : V)
        (it : CacheItem V), findItem c.cache k = some it →
      it.isExpired now = false →
      (c.get now k d).1.cache = eraseKey c.cache k ++ [(k, it)])
    ∧ (∀ (c : MemoryCache V) (now : ℚ) (k : String) (v : V)
        (ttl : Option ℚ), c.WF →
      ∃ l2, (c.set now k v ttl).cache =
        l2 ++ [(k, ⟨k, v, now, ttl.getD c.defaultTtl⟩)] ∧
        ∀ p ∈ l2, p.1 ≠ k) := by
  refine ⟨?_, ?_, ?_, ?_⟩
  · intro M ttl ops hM
    obtain ⟨h1, h2⟩ := applyOps_length_le (MemoryCache.mk0 (V := V) M ttl)
      ops (by simpa [MemoryCache.mk0] using hM) (by simp [MemoryCache.mk0])
    rw [h2] at h1
    exact h1
  · intro c now k v ttl hM hlen hfi
    have hne : c.cache ≠ [] := by
      intro h0
      rw [h0] at hlen
      simp at hlen
      omega
    obtain ⟨lru, tl, hcons⟩ := List.exists_cons_of_ne_nil hne
    refine ⟨lru, tl, hcons, ?_⟩
    have h1 : (findItem c.cache k).isSome = false := by simp [hfi]
    have h2 : c.maxSize ≤ c.cache.length := le_of_eq hlen.symm
    unfold MemoryCache.set
    simp only [h1, Bool.false_eq_true, if_false, h2, if_true]
    rw [hcons]
    simp
  · intro c now k d it hfi hexp
    simp [MemoryCache.get, hfi, hexp]
  · intro c now k v ttl hwf
    exact set_cache_spec c hwf now k v ttl

/-- Concrete instance of `cache_lru_bound_and_eviction`: a full cache of
capacity 2 holding keys `"a"` (least recent) and `"b"`; setting the fresh
key `"c"` evicts exactly `"a"` and appends `"c"` at the most-recent
end. -/
theorem cache_lru_bound_and_eviction_witness :
    ∃ lru tl,
      (⟨2, 10, [("a", ⟨"a", 1, 0, 10⟩), ("b", ⟨"b", 2, 0, 10⟩)],
        ⟨0, 0, 0, 0, 0⟩⟩ : MemoryCache ℚ).cache = lru :: tl ∧
      ((⟨2, 10, [("a", ⟨"a", 1, 0, 10⟩), ("b", ⟨"b", 2, 0, 10⟩)],
        ⟨0, 0, 0, 0, 0⟩⟩ : MemoryCache ℚ).set 1 "c" 3 none).cache =
        tl ++ [("c", ⟨"c", 3, 1, 10⟩)] :=
  (cache_lru_bound_and_eviction (V := ℚ)).2.1
    (⟨2, 10, [("a", ⟨"a", 1, 0, 10⟩), ("b", ⟨"b", 2, 0, 10⟩)],
      ⟨0, 0, 0, 0, 0⟩⟩ : MemoryCache ℚ) 1 "c" 3 none
    (by norm_num) rfl rfl

/-- C7: a `get` within the ttl of a `set` returns the stored value; a
`get` after the ttl has elapsed is a miss returning the default and
removes the expired entry from the store; a `get` of an absent key is a
miss returning the default. -/
theorem cache_ttl_semantics {V : Type} (c : MemoryCache V) (hwf : c.WF)
    (now0 now1 : ℚ) (k : String) (v : V) (t : ℚ) (d : V) :
    (now1 ≤ now0 + t →
      ((c.set now0 k v (some t)).get now1 k d).2 = v)
    ∧ (now0 + t < now1 →
      ((c.set now0 k v (some t)).get now1 k d).2 = d ∧
      findItem ((c.set now0 k v (some t)).get now1 k d).1.cache k = none)
    ∧ (findItem c.cache k = none → (c.get now1 k d).2 = d) := by
  obtain ⟨l2, hc, hl2⟩ := set_cache_spec c hwf now0 k v (some t)
  have hfind : findItem (c.set now0 k v (some t)).cache k =
      some ⟨k, v, now0, t⟩ := by
    rw [hc]
    exact findItem_append_self _ hl2
  refine ⟨?_, ?_, ?_⟩
  · intro hle
    have hexp : (⟨k, v, now0, t⟩ : CacheItem V).isExpired now1 = false := by
      simp [CacheItem.isExpired]
      exact hle
    simp [MemoryCache.get, hfind, hexp]
  · intro hlt
    have hexp : (⟨k, v, now0, t⟩ : CacheItem V).isExpired now1 = true := by
      simp [CacheItem.isExpired]
      exact hlt
    constructor
    · simp [MemoryCache.get, hfind, hexp]
    · simp only [MemoryCache.get, hfind, hexp, if_true]
      rw [hc, eraseKey_append_self _ hl2]
      exact findItem_none_iff.mpr hl2
  · intro hfi
    simp [MemoryCache.get, hfi]

/-- Concrete instance of `cache_ttl_semantics`: value 7 set at time 0 with
ttl 100 is returned by a `get` at time 50. -/
theorem cache_ttl_semantics_witness :
    (((MemoryCache.mk0 (V := ℚ) 5 100).set 0 "x" 7 (some 100)).get 50 "x"
      0).2 = 7 :=
  (cache_ttl_semantics (MemoryCache.mk0 (V := ℚ) 5 100)
    (by simp [MemoryCache.WF, MemoryCache.mk0]) 0 50 "x" 7 100 0).1
    (by norm_num)

/-! ## Two-tier cache (`src/utils/cache.py`, `PersistentCache`, `Cache`)

`PersistentCache.get` simply delegates to its in-memory cache (the disk
snapshot plays no part in reads).  The composite `Cache` stores Python
values, whose `None` is the `none` of an `Option` type. -/

/-- `PersistentCache`: an in-memory cache plus a best-effort disk
snapshot; reads only touch the in-memory tier. -/
structure PersistentCache (V : Type) where
  memoryCache : MemoryCache V

/-- `PersistentCache.get`. -/
def PersistentCache.get {V : Type} (p : PersistentCache V) (now : ℚ)
    (k : String) (default : V) : PersistentCache V × V :=
  ((⟨(p.memoryCache.get now k default).1⟩ : PersistentCache V),
    (p.memoryCache.get now k default).2)

/-- The composite `Cache` of the v2 system: memory tier then persistent
tier. -/
structure Cache (β : Type) where
  memoryCache : MemoryCache (Option β)
  persistentCache : PersistentCache (Option β)

/-- `Cache.get`: query the memory tier with default `None`; the
`value is not None` test is the constructor check; fall through to the
persistent tier whenever the memory tier returned `None`. -/
def Cache.get {β : Type} (c : Cache β) (now : ℚ) (k : String)
    (default : Option β) : Cache β × Option β :=
  let m := c.memoryCache.get now k none
  match m.2 with
  | some v => ({ c with memoryCache := m.1 }, some v)
  | none =>
    let p := c.persistentCache.get now k default
    (⟨m.1, p.1⟩, p.2)

/-- C10: `MemoryCache.get` returns the default when the key is absent and
(trivially) when the stored value equals the default; in particular a
stored Python `None` is indistinguishable from a miss at the public
interface: the composite `Cache.get` falls through to the persistent tier
both when the memory tier misses and when it holds `None` for the key. -/
theorem cache_none_miss_indistinguishable {β : Type} (c : Cache β)
    (now : ℚ) (k : String) (d : Option β) :
    (∀ it : CacheItem (Option β),
      findItem c.memoryCache.cache k = some it → it.isExpired now = false →
      it.value = d → (c.memoryCache.get now k d).2 = d)
    ∧ (findItem c.memoryCache.cache k = none →
      (c.memoryCache.get now k d).2 = d)
    ∧ (∀ it : CacheItem (Option β),
      findItem c.memoryCache.cache k = some it → it.isExpired now = false →
      it.value = none →
      (c.get now k d).2 = (c.persistentCache.get now k d).2)
    ∧ (findItem c.memoryCache.cache k = none →
      (c.get now k d).2 = (c.persistentCache.get now k d).2) := by
  refine ⟨?_, ?_, ?_, ?_⟩
  · intro it hfi hexp hval
    simp [MemoryCache.get, hfi, hexp, hval]
  · intro hfi
    simp [MemoryCache.get, hfi]
  · intro it hfi hexp hval
    have hm : (c.memoryCache.get now k none).2 = none := by
      simp [MemoryCache.get, hfi, hexp, hval]
    simp [Cache.get, hm]
  · intro hfi
    have hm : (c.memoryCache.get now k none).2 = none := by
      simp [MemoryCache.get, hfi]
    simp [Cache.get, hm]

/-- Concrete instance of `cache_none_miss_indistinguishable`: the memory
tier holds a live entry whose value is Python `None` for key `"x"`, so the
composite `get` returns what the persistent tier returns. -/
theorem cache_none_miss_indistinguishable_witness :
    ((⟨⟨5, 100, [("x", ⟨"x", none, 0, 100⟩)], ⟨0, 0, 0, 0, 0⟩⟩,
        ⟨⟨5, 100, [("x", ⟨"x", some 5, 0, 100⟩)], ⟨0, 0, 0, 0, 0⟩⟩⟩⟩ :
        Cache ℚ).get 1 "x" none).2 =
      ((⟨⟨5, 100, [("x", ⟨"x", some 5, 0, 100⟩)], ⟨0, 0, 0, 0, 0⟩⟩⟩ :
        PersistentCache (Option ℚ)).get 1 "x" none).2 :=
  (cache_none_miss_indistinguishable
    (⟨⟨5, 100, [("x", ⟨"x", none, 0, 100⟩)], ⟨0, 0, 0, 0, 0⟩⟩,
      ⟨⟨5, 100, [("x", ⟨"x", some 5, 0, 100⟩)], ⟨0, 0, 0, 0, 0⟩⟩⟩⟩ :
      Cache ℚ) 1 "x" none).2.2.1 ⟨"x", none, 0, 100⟩ rfl
    (by norm_num [CacheItem.isExpired]) rfl

/-! ## Alert engine (`src/utils/alerts.py`, `AlertManager`)

The injected metric source is a map `String → Option ℚ` (`None` means
"unavailable", from `_get_metric_value` catching errors).  Cooldowns are
in minutes; instants are in seconds.  The `id` and `message` strings of an
`Alert` are built with CPython `int(time.time())`/float formatting and
channel dispatch is pure I/O; neither affects a rule's firing behaviour,
so they are elided from the state. -/

/-- `AlertRule`. -/
structure AlertRule where
  name : String
  metric : String
  threshold : ℚ
  operator : String
  severity : String
  channels : List String
  cooldownMinutes : ℚ
  enabled : Bool

/-- A fired `Alert` (behaviour-relevant fields). -/
structure Alert where
  ruleName : String
  metric : String
  value : ℚ
  threshold : ℚ
  operator : String
  severity : String
  timestamp : ℚ

/-- The mutable state of `AlertManager` relevant to rule evaluation. -/
structure AlertManager where
  alertRules : List AlertRule
  ruleCooldowns : String → Option ℚ
  alertHistory : List Alert

/-- `AlertManager._evaluate_threshold`: string-dispatched comparison;
unknown operators log a warning and evaluate to `False`. -/
def evaluateThreshold (value threshold : ℚ) (op : String) : Bool :=
  if op = ">" then decide (value > threshold)
  else if op = "<" then decide (value < threshold)
  else if op = ">=" then decide (value ≥ threshold)
  else if op = "<=" then decide (value ≤ threshold)
  else if op = "==" then decide (value = threshold)
  else if op = "!=" then decide (value ≠ threshold)
  else false

/-- `AlertManager._is_in_cooldown`: strictly before
`last_trigger + cooldown` the rule is in cooldown. -/
def AlertManager.isInCooldown (st : AlertManager) (r : AlertRule)
    (now : ℚ) : Bool :=
  match st.ruleCooldowns r.name with
  | none => false
  | some t => decide (now < t + r.cooldownMinutes * 60)

/-- `AlertManager._create_alert` (behaviour-relevant fields). -/
def createAlert (r : AlertRule) (value : ℚ) (now : ℚ) : Alert :=
  ⟨r.name, r.metric, value, r.threshold, r.operator, r.severity, now⟩

/-- The body of the `for rule in self.alert_rules` loop of
`AlertManager.check_alerts` for one rule: skip disabled rules, skip rules
in cooldown, skip unavailable metrics; on threshold satisfaction create
the alert, record it, and start the rule's cooldown at `now`. -/
def AlertManager.checkRule (st : AlertManager)
    (metricSource : String → Option ℚ) (now : ℚ) (r : AlertRule) :
    AlertManager × Option Alert :=
  if ! r.enabled then (st, none)
  else if st.isInCooldown r now then (st, none)
  else
    match metricSource r.metric with
    | none => (st, none)
    | some v =>
      if evaluateThreshold v r.threshold r.operator then
        let a := createAlert r v now
        ({ st with
            alertHistory := st.alertHistory ++ [a]
            ruleCooldowns := fun s =>
              if s = r.name then some now else st.ruleCooldowns s }, some a)
      else (st, none)

/-- `AlertManager.check_alerts`: run every rule in order, accumulating the
triggered alerts. -/
def AlertManager.checkAlerts (st : AlertManager)
    (metricSource : String → Option ℚ) (now : ℚ) :
    AlertManager × List Alert :=
  st.alertRules.foldl
    (fun acc r =>
      let step := acc.1.checkRule metricSource now r
      (step.1, acc.2 ++ step.2.toList))
    (st, [])

/-- C5: (1) a rule whose cooldown stamp `t0` satisfies
`now < t0 + cooldown` is skipped entirely — the pass leaves the state
untouched, fires nothing, and its result does not depend on the metric
source at all (no metric read); (2) once `now ≥ t0 + cooldown` the rule is
no longer in cooldown; (3) an evaluation that does not fire (metric
unavailable or threshold not met) never touches the cooldown stamp, while
a firing evaluation sets it to `now`; (4) consequently a single-rule pass
that fires at `t0` and is evaluated again at any `t1 < t0 + cooldown`
yields exactly one Alert in total. -/
theorem alert_cooldown_spec (r : AlertRule) (now t0 : ℚ) :
    (∀ st : AlertManager, r.enabled = true →
      st.ruleCooldowns r.name = some t0 →
      now < t0 + r.cooldownMinutes * 60 →
      ∀ f g : String → Option ℚ,
        st.checkRule f now r = (st, none) ∧
        st.checkRule f now r = st.checkRule g now r)
    ∧ (∀ st : AlertManager, st.ruleCooldowns r.name = some t0 →
      t0 + r.cooldownMinutes * 60 ≤ now → st.isInCooldown r now = false)
    ∧ (∀ (st : AlertManager) (f : String → Option ℚ),
      (f r.metric = none → (st.checkRule f now r).1 = st) ∧
      (∀ v, f r.metric = some v →
        evaluateThreshold v r.threshold r.operator = false →
        (st.checkRule f now r).1 = st) ∧
      (∀ v, f r.metric = some v → r.enabled = true →
        st.isInCooldown r now = false →
        evaluateThreshold v r.threshold r.operator = true →
        (st.checkRule f now r).1.ruleCooldowns r.name = some now ∧
        (st.checkRule f now r).2 = some (createAlert r v now)))
    ∧ (∀ (f : String → Option ℚ) (v : ℚ) (t1 : ℚ), r.enabled = true →
      f r.metric = some v →
      evaluateThreshold v r.threshold r.operator = true →
      t1 < t0 + r.cooldownMinutes * 60 →
      ((⟨[r], fun _ => none, []⟩ : AlertManager).checkAlerts f t0).2 =
        [createAlert r v t0] ∧
      (((⟨[r], fun _ => none, []⟩ : AlertManager).checkAlerts f
          t0).1.checkAlerts f t1).2 = []) := by
  refine ⟨?_, ?_, ?_, ?_⟩
  · intro st hen hcd hlt f g
    have hic : st.isInCooldown r now = true := by
      simp [AlertManager.isInCooldown, hcd]
      exact hlt
    constructor <;> simp [AlertManager.checkRule, hen, hic]
  · intro st hcd hge
    simp [AlertManager.isInCooldown, hcd]
    exact hge
  · intro st f
    refine ⟨?_, ?_, ?_⟩
    · intro hf
      by_cases hen : r.enabled <;>
        by_cases hic : st.isInCooldown r now <;>
        simp [AlertManager.checkRule, hen, hic, hf]
    · intro v hf hev
      by_cases hen : r.enabled <;>
        by_cases hic : st.isInCooldown r now <;>
        simp [AlertManager.checkRule, hen, hic, hf, hev]
    · intro v hf hen hic hev
      constructor <;> simp [AlertManager.checkRule, hen, hic, hf, hev]
  · intro f v t1 hen hf hev hlt
    have hic0 : (⟨[r], fun _ => none, []⟩ : AlertManager).isInCooldown r t0 =
        false := by
      simp [AlertManager.isInCooldown]
    have hpass1 : (⟨[r], fun _ => none, []⟩ : AlertManager).checkAlerts f t0 =
        (⟨[r], fun s => if s = r.name then some t0 else none,
          [createAlert r v t0]⟩, [createAlert r v t0]) := by
      simp [AlertManager.checkAlerts, AlertManager.checkRule, hic0, hen, hf,
        hev]
    refine ⟨by rw [hpass1], ?_⟩
    rw [hpass1]
    have hic1 : (⟨[r], fun s => if s = r.name then some t0 else none,
        [createAlert r v t0]⟩ : AlertManager).isInCooldown r t1 = true := by
      simp [AlertManager.isInCooldown]
      exact hlt
    simp [AlertManager.checkAlerts, AlertManager.checkRule, hic1, hen]

/-- Concrete instance of `alert_cooldown_spec`: the CPU rule (threshold
80, cooldown 10 minutes) with metric value 85 fires exactly one alert at
time 0 and fires nothing when re-evaluated at time 300 (< 600 s). -/
theorem alert_cooldown_spec_witness :
    ((⟨[⟨"High CPU Usage", "system.cpu_percent", 80, ">", "warning",
        ["dashboard", "email"], 10, true⟩], fun _ => none,
        []⟩ : AlertManager).checkAlerts
      (fun s => if s = "system.cpu_percent" then some 85 else none) 0).2 =
      [createAlert ⟨"High CPU Usage", "system.cpu_percent", 80, ">",
        "warning", ["dashboard", "email"], 10, true⟩ 85 0] ∧
    (((⟨[⟨"High CPU Usage", "system.cpu_percent", 80, ">", "warning",
        ["dashboard", "email"], 10, true⟩], fun _ => none,
        []⟩ : AlertManager).checkAlerts
      (fun s => if s = "system.cpu_percent" then some 85 else none)
      0).1.checkAlerts
      (fun s => if s = "system.cpu_percent" then some 85 else none)
      300).2 = [] :=
  (alert_cooldown_spec ⟨"High CPU Usage", "system.cpu_percent", 80, ">",
      "warning", ["dashboard", "email"], 10, true⟩ 0 0).2.2.2
    (fun s => if s = "system.cpu_percent" then some 85 else none) 85 300
    rfl rfl (by norm_num [evaluateThreshold]) (by norm_num)

/-! ## Anomaly detection (`src/utils/anomaly_detector.py`)

Series values are exact rationals (`np.float64` arithmetic idealised).
`np.std` is the square root of the population variance; since ℚ has no
square root, the z-score comparison `|x-mean|/std > 2.5` is embedded in
its squared form `25·var < 4·(x-mean)²` (equivalent whenever `std > 0`,
which the source's `std == 0` guard ensures; the equivalence with the
real-valued `√` formulation is part of `z_score_detection_spec`), and the
`stddev` feature component is abstracted by a parameter `sqrtA`. -/

/-- `np.mean` (population mean; `0/0 = 0` for the empty series). -/
def npMean (l : List ℚ) : ℚ := l.sum / l.length

/-- `np.std l ^ 2`: the population variance. -/
def npVar (l : List ℚ) : ℚ :=
  ((l.map fun x => (x - npMean l) ^ 2).sum) / l.length

/-- `np.min` of a window. -/
def npMin : List ℚ → ℚ
  | [] => 0
  | x :: xs => xs.foldl min x

/-- `np.max` of a window. -/
def npMax : List ℚ → ℚ
  | [] => 0
  | x :: xs => xs.foldl max x

/-- `np.percentile` with the default linear interpolation
(`np.median l = np.percentile l 50`). -/
def npPercentile (l : List ℚ) (q : ℚ) : ℚ :=
  let s := l.insertionSort (· ≤ ·)
  let pos : ℚ := q / 100 * ((l.length : ℚ) - 1)
  let lo : ℤ := pos.floor
  let frac : ℚ := pos - (lo : ℚ)
  match s.get? lo.toNat, s.get? (lo.toNat + 1) with
  | some a, some b => a + frac * (b - a)
  | some a, none => a
  | _, _ => 0

/-- `AnomalyDetector._z_score_detection`: values of the series flagged as
anomalous.  Series shorter than 2 and series with `std == 0`
(⟺ variance 0) flag nothing; otherwise flag the values with
`|x-mean|/std > 2.5`, embedded in its squared form. -/
def zScoreFlags (data : List ℚ) : List ℚ :=
  if data.length < 2 then []
  else if npVar data = 0 then []
  else data.filter fun x =>
    decide (25 * npVar data < 4 * (x - npMean data) ^ 2)

/-- The per-window feature vector of
`AnomalyDetector._prepare_features`:
`[mean, stddev, min, max, median, Q1, Q3, current_value]` with the
square root for `stddev` abstracted by `sqrtA`. -/
def featureVector (sqrtA : ℚ → ℚ) (window : List ℚ) (current : ℚ) :
    List ℚ :=
  [npMean window, sqrtA (npVar window), npMin window, npMax window,
    npPercentile window 50, npPercentile window 25,
    npPercentile window 75, current]

/-- `AnomalyDetector._prepare_features`: for a series shorter than the
window the raw values are reshaped to one-element vectors; otherwise
`for i in range(window_size, len(data))` yields one feature vector per
`i`, over the window `data[i-window_size:i]` with current value
`data[i]`. -/
def prepareFeatures (sqrtA : ℚ → ℚ) (data : List ℚ) (windowSize : Nat) :
    List (List ℚ) :=
  if data.length < windowSize then data.map fun x => [x]
  else
    (List.range' windowSize (data.length - windowSize)).map fun i =>
      featureVector sqrtA ((data.drop (i - windowSize)).take windowSize)
        (data.getD i 0)

/-- The index arithmetic of `AnomalyDetector._detect_with_ml_model`: the
positions of the original series reported as anomalous, given the
per-feature-vector anomaly scores: position `window_size + i` for each
flagged score index `i`, kept only if within the series. -/
def mlFlaggedIndices (scores : List ℚ) (threshold : ℚ)
    (windowSize len : Nat) : List Nat :=
  ((scores.enum.filter fun p => decide (threshold < p.2)).map
    fun p => windowSize + p.1).filter fun idx => decide (idx < len)

lemma npVar_nonneg (l : List ℚ) : 0 ≤ npVar l := by
  unfold npVar
  apply div_nonneg
  · apply List.sum_nonneg
    intro y hy
    obtain ⟨x, _, rfl⟩ := List.mem_map.mp hy
    positivity
  · positivity

lemma zScoreFlags_of_var_zero {data : List ℚ} (h : npVar data = 0) :
    zScoreFlags data = [] := by
  unfold zScoreFlags
  by_cases hl : data.length < 2 <;> simp [hl, h]

/-- The squared form of the z-score test agrees with the real-valued
`|y|/√v > 2.5` whenever the variance is positive. -/
lemma zscore_sq_iff (v y : ℝ) (hv : 0 < v) :
    25 * v < 4 * y ^ 2 ↔ (2.5 : ℝ) < |y| / Real.sqrt v := by
  have hs : 0 < Real.sqrt v := Real.sqrt_pos.mpr hv
  rw [lt_div_iff₀ hs]
  constructor
  · intro h
    have h1 : ((2.5 : ℝ) * Real.sqrt v) ^ 2 < |y| ^ 2 := by
      rw [mul_pow, Real.sq_sqrt hv.le, sq_abs]
      nlinarith
    exact lt_of_pow_lt_pow_left₀ 2 (abs_nonneg y) h1
  · intro h
    have h2 : (0 : ℝ) ≤ 2.5 * Real.sqrt v := by positivity
    have h1 : ((2.5 : ℝ) * Real.sqrt v) ^ 2 < |y| ^ 2 :=
      pow_lt_pow_left₀ h h2 (by norm_num)
    rw [mul_pow, Real.sq_sqrt hv.le, sq_abs] at h1
    nlinarith

lemma mean_inject_99 :
    npMean (List.replicate 99 50 ++ [500]) = 109 / 2 := by
  simp [npMean, List.sum_append, List.sum_replicate, nsmul_eq_mul]
  norm_num

lemma var_inject_99 :
    npVar (List.replicate 99 50 ++ [500]) = 8019 / 4 := by
  simp only [npVar, mean_inject_99, List.map_append, List.map_replicate,
    List.sum_append, List.sum_replicate, nsmul_eq_mul, List.map_cons,
    List.map_nil, List.sum_cons, List.sum_nil, List.length_append,
    List.length_replicate, List.length_cons, List.length_nil]
  norm_num

/-- C8: z-score anomaly detection flags nothing when the variance (hence
the standard deviation) is zero; for a series of length ≥ 2 with nonzero
variance it flags exactly the values `x` with
`|x - mean| / stddev > 2.5` (over ℝ, `stddev = √variance`, mean and
variance over the whole series); in particular 99 values at 50 plus one
value 500 flag exactly the injected point, and an all-constant series
flags nothing. -/
theorem z_score_detection_spec :
    (∀ data : List ℚ, npVar data = 0 → zScoreFlags data = [])
    ∧ (∀ data : List ℚ, 2 ≤ data.length → npVar data ≠ 0 → ∀ x : ℚ,
      (x ∈ zScoreFlags data ↔ x ∈ data ∧
        (2.5 : ℝ) < |(x : ℝ) - (npMean data : ℝ)| /
          Real.sqrt ((npVar data : ℝ))))
    ∧ zScoreFlags (List.replicate 99 50 ++ [500]) = [500]
    ∧ (∀ (c : ℚ) (n : ℕ), zScoreFlags (List.replicate n c) = []) := by
  refine ⟨fun data h => zScoreFlags_of_var_zero h, ?_, ?_, ?_⟩
  · intro data h2 hv x
    have hvpos : (0 : ℚ) < npVar data :=
      lt_of_le_of_ne (npVar_nonneg data) (Ne.symm hv)
    have hvposR : (0 : ℝ) < ((npVar data : ℚ) : ℝ) := by
      exact_mod_cast hvpos
    unfold zScoreFlags
    rw [if_neg (by omega), if_neg hv, List.mem_filter]
    rw [← zscore_sq_iff _ _ hvposR]
    constructor
    · rintro ⟨hmem, hdec⟩
      refine ⟨hmem, ?_⟩
      have hq : (25 : ℚ) * npVar data < 4 * (x - npMean data) ^ 2 :=
        of_decide_eq_true hdec
      exact_mod_cast hq
    · rintro ⟨hmem, hlt⟩
      refine ⟨hmem, decide_eq_true ?_⟩
      exact_mod_cast hlt
  · have hlen : (List.replicate 99 (50 : ℚ) ++ [500]).length = 100 := by
      simp
    have hp50 : (decide ((25 : ℚ) * (8019 / 4) <
        4 * ((50 : ℚ) - 109 / 2) ^ 2)) = false := by
      norm_num
    have hp500 : (decide ((25 : ℚ) * (8019 / 4) <
        4 * ((500 : ℚ) - 109 / 2) ^ 2)) = true := by
      norm_num
    unfold zScoreFlags
    rw [if_neg (by rw [hlen]; omega),
      if_neg (by rw [var_inject_99]; norm_num)]
    simp only [var_inject_99, mean_inject_99, List.filter_append,
      List.filter_replicate, hp50, List.filter_cons, hp500,
      List.filter_nil]
    simp
  · intro c n
    rcases Nat.lt_or_ge n 2 with h | h
    · unfold zScoreFlags
      rw [if_pos (by simpa using h)]
    · have hn : ((n : ℚ)) ≠ 0 := Nat.cast_ne_zero.mpr (by omega)
      have hm : npMean (List.replicate n c) = c := by
        simp [npMean, List.sum_replicate, nsmul_eq_mul]
        field_simp
      have hv : npVar (List.replicate n c) = 0 := by
        simp [npVar, hm, List.map_replicate, List.sum_replicate]
      exact zScoreFlags_of_var_zero hv

/-- Concrete instance of `z_score_detection_spec`: the 99×50-plus-500
series flags exactly the injected value. -/
theorem z_score_detection_spec_witness :
    zScoreFlags (List.replicate 99 50 ++ [500]) = [500] :=
  z_score_detection_spec.2.2.1

/-- C9 (counterexample to the stated claim): with `window_size = 2` and
the series `[1, 2, 3]`, feature construction yields exactly one feature
vector (its current value is `data[2] = 3`), so the first `window_size`
= 2 points produce no feature vector — not the first `window_size - 1`
= 1 points as claimed, which would have required 2 feature vectors. -/
theorem prepare_features_offset_counterexample :
    (prepareFeatures (fun q => q) [1, 2, 3] 2).length = 1 ∧
    ((prepareFeatures (fun q => q) [1, 2, 3] 2).getD 0 []).getD 7 0 = 3 ∧
    ¬ ((3 : Nat) - (prepareFeatures (fun q => q) [1, 2, 3] 2).length
        = 2 - 1) := by
  have h1 : (prepareFeatures (fun q => q) [1, 2, 3] 2).length = 1 := rfl
  refine ⟨h1, ?_, ?_⟩
  · show (3 : ℚ) = 3
    rfl
  · rw [h1]
    norm_num

/-- C9 (amended): for a series of length ≥ `window_size`, feature
construction yields exactly `len - window_size` vectors: the `j`-th is
`[mean, stddev, min, max, median, Q1, Q3, current]` over the window
`data[j : j+window_size]` with current value `data[window_size + j]`;
hence exactly the first `window_size` points produce no feature vector,
and every index flagged by the model-based path is at least
`window_size` (the first `window_size` points are never scored). -/
theorem prepare_features_window_alignment (sqrtA : ℚ → ℚ) (data : List ℚ)
    (ws : Nat) (h : ws ≤ data.length) :
    (prepareFeatures sqrtA data ws).length = data.length - ws
    ∧ (∀ j, j < data.length - ws →
      (prepareFeatures sqrtA data ws).get? j =
        some (featureVector sqrtA ((data.drop j).take ws)
          (data.getD (ws + j) 0)))
    ∧ (∀ (scores : List ℚ) (th : ℚ) (idx : Nat),
      idx ∈ mlFlaggedIndices scores th ws data.length →
      ws ≤ idx ∧ idx < data.length) := by
  have hnlt : ¬ data.length < ws := not_lt.mpr h
  refine ⟨?_, ?_, ?_⟩
  · unfold prepareFeatures
    rw [if_neg hnlt]
    simp
  · intro j hj
    have hjr : j < (List.range' ws (data.length - ws)).length := by
      simpa using hj
    unfold prepareFeatures
    rw [if_neg hnlt, List.get?_eq_getElem?]
    simp only [List.getElem?_map, List.getElem?_eq_getElem hjr,
      List.getElem_range', one_mul, Option.map_some']
    rw [Nat.add_sub_cancel_left]
  · intro scores th idx hidx
    unfold mlFlaggedIndices at hidx
    rw [List.mem_filter] at hidx
    obtain ⟨hmem, hlt⟩ := hidx
    obtain ⟨p, _, rfl⟩ := List.mem_map.mp hmem
    exact ⟨Nat.le_add_right ws p.1, of_decide_eq_true hlt⟩

/-- Concrete instance of `prepare_features_window_alignment`: a series of
length 4 with `window_size = 2` yields exactly `4 - 2 = 2` feature
vectors. -/
theorem prepare_features_window_alignment_witness :
    (prepareFeatures (fun q => q) [1, 2, 3, 4] 2).length = 4 - 2 :=
  (prepare_features_window_alignment (fun q => q) [1, 2, 3, 4] 2
    (by norm_num)).1

end CloudOrch
